import Mathlib

/-!
# Verification of the flang array-expression lowering engine

A shallow embedding, in Lean 4, of the parts of
`flang/lib/Lower/ConvertExpr.cpp` (class `ArrayExprLowering` and class
`ScalarExprLowering`) that the specification's claims are about, together
with proofs settling each claim.

Conventions used throughout:
* machine integers that index buffers or count elements are modelled as
  `Nat`/`Int`;
* the stateful MLIR builder is modelled by explicit state passing; where a
  claim is about the *run-time* behaviour of the generated FIR, the
  generated control structure is either reified as a small inductive IR
  with an interpreter, or directly denoted on a given run-time scenario
  (the branch a generated `fir.if` takes is a function of the scenario's
  boolean inputs);
* fatal compilation errors (`fir::emitFatalError`, `TODO`) are modelled
  with `Except String`.
-/

/-! ## C2: the array-constructor materializer's growable buffer

Model of `ArrayExprLowering::growBuffer` (ConvertExpr.cpp:6212-6248) and of
the scalar case of `ArrayExprLowering::copyNextArrayCtorSection`
(ConvertExpr.cpp:6252-6387, lambda `doTrivialScalar`).
-/

/-- The array-constructor scratch buffer: `data` is the list of elements
written so far (so `data.length` is the value stored in `buffPos`), and
`capacity` is the element capacity recorded in `buffSize`.  A `realloc`
keeps the already-written elements and changes only the capacity. -/
structure CtorBuffer where
  data : List Int
  capacity : Nat
  deriving DecidableEq, Repr

/-- `ArrayExprLowering::growBuffer` (ConvertExpr.cpp:6212-6248).  The
generated test is `arith.cmpi sle, bufferSize, needed` (line 6219); on the
then-branch the new size is `needed * 2` (line 6227-6228), stored into
`buffSize`, and the buffer is `realloc`ed (contents preserved); on the
else-branch the buffer is forwarded unchanged. -/
def growBuffer (mem : CtorBuffer) (needed : Nat) : CtorBuffer :=
  if mem.capacity ≤ needed then
    { data := mem.data, capacity := needed * 2 }
  else
    mem

/-- The capacity-growth rule as stated by the spec (§4.7:
`new_capacity = max(needed, 2*old_capacity)`), for comparison with
`growBuffer`. -/
def specGrowCapacity (needed oldCapacity : Nat) : Nat :=
  max needed (2 * oldCapacity)

/-- The `doTrivialScalar` lambda of
`ArrayExprLowering::copyNextArrayCtorSection` (ConvertExpr.cpp:6331-6352):
load `off` from `buffPos`, compute `plusOne = off + 1`, grow the buffer
with `needed = plusOne`, store the element at offset `off`, and store
`plusOne` back to `buffPos`. -/
def copyNextArrayCtorScalar (buf : CtorBuffer) (v : Int) : CtorBuffer :=
  let off := buf.data.length
  let plusOne := off + 1
  let grown := growBuffer buf plusOne
  { data := grown.data ++ [v], capacity := grown.capacity }

/-! ## C3: iteration-shape inference

Model of `ArrayExprLowering::getInducingShapeArrayOperand`
(ConvertExpr.cpp:4145-4158) and `ArrayExprLowering::genIterationShape`
(ConvertExpr.cpp:4160-4192).
-/

/-- An array operand collected during compilation
(`ArrayExprLowering::arrayOperands`): only the data relevant to shape
inference is kept — the (slice-adjusted) shape `getShape` would return,
and the `mayBeAbsent` flag. -/
structure ArrayOperand where
  shape : List Nat
  mayBeAbsent : Bool
  deriving DecidableEq, Repr

/-- The loop in `getInducingShapeArrayOperand` (ConvertExpr.cpp:4149-4151):
return the first operand whose `mayBeAbsent` flag is clear, if any. -/
def firstNonAbsent : List ArrayOperand → Option ArrayOperand
  | [] => none
  | op :: rest => if !op.mayBeAbsent then some op else firstNonAbsent rest

/-- `ArrayExprLowering::getInducingShapeArrayOperand`
(ConvertExpr.cpp:4145-4158): the first operand that may not be absent; if
all operands may be absent, the first operand.  The source asserts the
operand list is non-empty; the empty case is `none` here. -/
def getInducingShapeArrayOperand (ops : List ArrayOperand) :
    Option ArrayOperand :=
  match firstNonAbsent ops with
  | some op => some op
  | none => ops.head?

/-- The `ArrayExprLowering` state consulted by `genIterationShape`:
`destShape` (field, line 7351), the loaded `destination`'s shape if a
destination is present (field, line 7349, via `getShape`), the collected
`arrayOperands` (field, line 7353), whether `loweredProcRef` is set and
elemental (field, line 7369), and the shape extracted from the passed
object argument of that procedure reference, when one exists. -/
structure ShapeState where
  destShape : List Nat
  destinationShape : Option (List Nat)
  arrayOperands : List ArrayOperand
  loweredProcRefElemental : Bool
  passedObjectShape : Option (List Nat)
  deriving DecidableEq, Repr

/-- `ArrayExprLowering::genIterationShape` (ConvertExpr.cpp:4160-4192):
use the precomputed destination shape; otherwise the destination's shape;
otherwise the inducing array operand's shape; otherwise, in elemental
context, the passed object's shape; otherwise emit a fatal error. -/
def genIterationShape (s : ShapeState) : Except String (List Nat) :=
  if s.destShape ≠ [] then
    .ok s.destShape
  else
    match s.destinationShape with
    | some sh => .ok sh
    | none =>
      if s.arrayOperands ≠ [] then
        match getInducingShapeArrayOperand s.arrayOperands with
        | some op => .ok op.shape
        | none => .error "getInducingShapeArrayOperand: empty operand list"
      else if s.loweredProcRefElemental then
        match s.passedObjectShape with
        | some extents => .ok extents
        | none => .error "failed to compute the array expression shape"
      else
        .error "failed to compute the array expression shape"

/-! ## Theorems for C2 -/

/-- C2, counterexample.  The spec's growth rule
`new_capacity = max(needed, 2*old_capacity)` disagrees with the code:
appending the 11th element to a full buffer of capacity 10 makes
`growBuffer` set the capacity to `needed * 2 = 22`, not
`max(11, 20) = 20`; and appending the 10th element to a buffer of
capacity 10 (so the needed position 10 does *not* exceed the capacity)
still grows the buffer, because the generated comparison is `sle`, not
`slt`. -/
theorem growBuffer_not_specGrowCapacity :
    (copyNextArrayCtorScalar
        ⟨(List.range 10).map Int.ofNat, 10⟩ 5).capacity = 22 ∧
      specGrowCapacity 11 10 = 20 ∧
      (copyNextArrayCtorScalar
        ⟨(List.range 9).map Int.ofNat, 10⟩ 5).capacity = 20 ∧
      (⟨(List.range 9).map Int.ofNat, 10⟩ : CtorBuffer).capacity = 10 := by
  refine ⟨?_, by decide, ?_, rfl⟩ <;>
    simp [copyNextArrayCtorScalar, growBuffer]

/-- C2, amended: in the array-constructor materializer, for every element
appended, whenever the needed buffer position reaches or exceeds the
current capacity (`capacity ≤ needed`), the buffer capacity is grown to
exactly `2 * needed`; elements written before a growth event are unchanged
by the growth, and appending writes the new element after them. -/
theorem growBuffer_spec (buf : CtorBuffer) (needed : Nat) (v : Int)
    (hgrow : buf.capacity ≤ needed) :
    (growBuffer buf needed).capacity = 2 * needed ∧
      (growBuffer buf needed).data = buf.data ∧
      (∀ b : CtorBuffer, ∀ n, n < b.capacity → growBuffer b n = b) ∧
      (copyNextArrayCtorScalar buf v).data = buf.data ++ [v] := by
  refine ⟨?_, ?_, ?_, ?_⟩
  · simp [growBuffer, hgrow, Nat.mul_comm]
  · simp [growBuffer, hgrow]
  · intro b n hn
    simp [growBuffer, Nat.not_le.mpr hn]
  · unfold copyNextArrayCtorScalar growBuffer
    by_cases h : buf.capacity ≤ buf.data.length + 1 <;> simp [h]

/-- Witness for `growBuffer_spec` at a concrete buffer. -/
theorem growBuffer_spec_witness :
    (growBuffer ⟨[3, 7], 2⟩ 3).capacity = 2 * 3 ∧
      (growBuffer ⟨[3, 7], 2⟩ 3).data = [3, 7] ∧
      (copyNextArrayCtorScalar ⟨[3, 7], 2⟩ 9).data = [3, 7, 9] := by
  obtain ⟨h1, h2, _, h4⟩ := growBuffer_spec ⟨[3, 7], 2⟩ 3 9 (by decide)
  exact ⟨h1, h2, h4⟩

/-! ## Theorems for C3 -/

/-- `firstNonAbsent` is the first operand, in source order, that cannot be
absent. -/
theorem firstNonAbsent_eq_find (ops : List ArrayOperand) :
    firstNonAbsent ops = ops.find? (fun op => !op.mayBeAbsent) := by
  induction ops with
  | nil => rfl
  | cons op rest ih =>
    by_cases h : op.mayBeAbsent <;>
      simp [firstNonAbsent, List.find?, h, ih]

/-- C3: the governing iteration shape is resolved in priority order: an
already-known destination shape; else the destination's loaded shape; else
the shape of the inducing array operand — the first operand (in source
order) that cannot be absent, or the first operand if all may be absent;
else, in an elemental-procedure context, the shape of the designated
passed-object argument; and if none applies the compilation aborts with a
fatal shape-inference error. -/
theorem genIterationShape_priority (s : ShapeState) :
    (s.destShape ≠ [] → genIterationShape s = .ok s.destShape) ∧
      (∀ sh, s.destShape = [] → s.destinationShape = some sh →
        genIterationShape s = .ok sh) ∧
      (∀ op, s.destShape = [] → s.destinationShape = none →
        s.arrayOperands.find? (fun o => !o.mayBeAbsent) = some op →
        genIterationShape s = .ok op.shape) ∧
      (∀ hd tl, s.destShape = [] → s.destinationShape = none →
        s.arrayOperands = hd :: tl → (∀ o ∈ s.arrayOperands, o.mayBeAbsent) →
        genIterationShape s = .ok hd.shape) ∧
      (∀ sh, s.destShape = [] → s.destinationShape = none →
        s.arrayOperands = [] → s.loweredProcRefElemental →
        s.passedObjectShape = some sh → genIterationShape s = .ok sh) ∧
      (s.destShape = [] → s.destinationShape = none →
        s.arrayOperands = [] →
        (¬s.loweredProcRefElemental ∨ s.passedObjectShape = none) →
        genIterationShape s =
          .error "failed to compute the array expression shape") := by
  refine ⟨?_, ?_, ?_, ?_, ?_, ?_⟩
  · intro h
    simp [genIterationShape, h]
  · intro sh h1 h2
    simp [genIterationShape, h1, h2]
  · intro op h1 h2 h3
    have hne : s.arrayOperands ≠ [] := by
      intro hnil
      rw [hnil] at h3
      simp at h3
    simp [genIterationShape, h1, h2, hne, getInducingShapeArrayOperand,
      firstNonAbsent_eq_find, h3]
  · intro hd tl h1 h2 h3 hall
    have hfind : s.arrayOperands.find? (fun o => !o.mayBeAbsent) = none := by
      rw [List.find?_eq_none]
      intro o ho
      simpa using hall o ho
    simp [genIterationShape, h1, h2, h3, getInducingShapeArrayOperand,
      firstNonAbsent_eq_find, hfind]
    rw [h3] at hfind
    simp [getInducingShapeArrayOperand, firstNonAbsent_eq_find, hfind]
  · intro sh h1 h2 h3 h4 h5
    simp [genIterationShape, h1, h2, h3, h4, h5]
  · intro h1 h2 h3 h4
    rcases h4 with h4 | h4 <;>
      simp [genIterationShape, h1, h2, h3, h4]

/-- Witness for `genIterationShape_priority`: with no destination shape, no
destination, and operands `[(shape [4], may be absent), (shape [5], cannot
be absent)]`, the inducing operand is the second and the shape is `[5]`. -/
theorem genIterationShape_priority_witness :
    genIterationShape ⟨[], none, [⟨[4], true⟩, ⟨[5], false⟩], false, none⟩ =
      .ok [5] := by
  exact (genIterationShape_priority _).2.2.1 ⟨[5], false⟩ rfl rfl (by decide)

/-! ## C4: the WHERE-clause conditional nest

Model of the mask conditional structure generated by
`ArrayExprLowering::genIterSpace` (ConvertExpr.cpp:4465-4507).  The
generated `fir.if` structure is reified as a small inductive IR: the
`genFalseBlock` lambda (line 4479-4488) creates an `fir.if` whose
then-region forwards the loop-carried accumulator unchanged (the body is
skipped) and places the rest of the lowering in the else-region; the
`genTrueBlock` lambda (line 4489-4498) does the opposite.
-/

/-- The conditional structure generated in the innermost loop for one
WHERE clause chain.  `guardNeg m inner` is the `fir.if` made by
`genFalseBlock` for mask `m` (the lowering continues in the else-region);
`guardPos m inner` is the `fir.if` made by `genTrueBlock` (the lowering
continues in the then-region); `body` is the assignment body. -/
inductive MaskCondIR where
  | body
  | guardNeg (m : Nat) (inner : MaskCondIR)
  | guardPos (m : Nat) (inner : MaskCondIR)
  deriving DecidableEq, Repr

/-- The loop of `genIterSpace` over one clause chain
(ConvertExpr.cpp:4499-4505): with `size = maskExprs.size() - 1`, each of
the first `size` entries, when non-null, gets `genFalseBlock`, and the
last entry, when non-null, gets `genTrueBlock`.  Null entries generate no
conditional. -/
def genMaskCondNest : List (Option Nat) → MaskCondIR
  | [] => .body
  | [some m] => .guardPos m .body
  | [none] => .body
  | some m :: e :: rest => .guardNeg m (genMaskCondNest (e :: rest))
  | none :: e :: rest => genMaskCondNest (e :: rest)

/-- Run-time meaning of the generated conditional nest at one iteration
point: `env m` is the value the cached mask closure for `m` yields there,
and the result tells whether the assignment body executes. -/
def maskBodyExecutes (env : Nat → Bool) : MaskCondIR → Bool
  | .body => true
  | .guardNeg m inner => if env m then false else maskBodyExecutes env inner
  | .guardPos m inner => if env m then maskBodyExecutes env inner else false

/-- C4: for a WHERE region whose governing clause chain is
`[m1, ..., m(k-1), mk]` (all clauses carrying masks), the generated
conditional nest executes the body only at iteration points where
`m1 .. m(k-1)` are all false and `mk` is true (first-match-wins), and the
final clause's mask is generated non-negated (`guardPos`) as the closing
branch of the nested conditional region. -/
theorem genMaskCondNest_first_match (init : List Nat) (last : Nat)
    (env : Nat → Bool) :
    maskBodyExecutes env
        (genMaskCondNest ((init ++ [last]).map some)) =
      ((init.all fun m => !env m) && env last) ∧
      genMaskCondNest ((init ++ [last]).map some) =
        init.foldr (fun m t => .guardNeg m t) (.guardPos last .body) := by
  induction init with
  | nil => simp [genMaskCondNest, maskBodyExecutes]
  | cons m rest ih =>
    have hcons : ∀ e : Option Nat, ∀ l : List (Option Nat),
        genMaskCondNest (some m :: e :: l) =
          .guardNeg m (genMaskCondNest (e :: l)) := fun _ _ => rfl
    obtain ⟨ih1, ih2⟩ := ih
    constructor
    · rcases rest with _ | ⟨r, rs⟩
      · by_cases h : env m <;>
          simp [genMaskCondNest, maskBodyExecutes, h]
      · rw [show ((m :: (r :: rs)) ++ [last]).map some =
            some m :: ((r :: rs ++ [last]).map some) by simp]
        rw [show (r :: rs ++ [last]).map some =
            some r :: ((rs ++ [last]).map some) by simp]
        rw [hcons]
        by_cases h : env m
        · simp [maskBodyExecutes, h]
        · simp [maskBodyExecutes, h]
          simpa using ih1
    · rcases rest with _ | ⟨r, rs⟩
      · simp [genMaskCondNest]
      · rw [show ((m :: (r :: rs)) ++ [last]).map some =
            some m :: ((r :: rs ++ [last]).map some) by simp]
        rw [show (r :: rs ++ [last]).map some =
            some r :: ((rs ++ [last]).map some) by simp]
        rw [hcons]
        simp only [List.foldr_cons]
        rw [show some r :: ((rs ++ [last]).map some) =
            ((r :: rs) ++ [last]).map some by simp]
        rw [ih2]
        rfl

/-! ## C10: vector-subscript extent clamping

Model of `ArrayExprLowering::genVectorSubscriptArrayFetch`
(ConvertExpr.cpp:5470-5492), extent computation part.
-/

/-- The extent-adjustment step of `genVectorSubscriptArrayFetch`
(ConvertExpr.cpp:5480-5490).  The source compares the two extents as SSA
values (`destShape[0] != savedDestShape[dim]`); when they are the same
value nothing is emitted, otherwise `arith.cmpi sgt` + `arith.select`
compute the smaller value at run time.  `sameSSAValue` tells whether the
two extents are one and the same SSA value (in which case their run-time
values are necessarily equal). -/
def genVectorSubscriptArrayFetchExtent (vecExtent destExtent : Int)
    (sameSSAValue : Bool) : Int :=
  if sameSSAValue then
    destExtent
  else if vecExtent > destExtent then destExtent else vecExtent

/-- The run-time iteration points of the (ordered) loop generated for an
extent: `fir.do_loop` runs over the closed interval `[0, extent-1]`
(ConvertExpr.cpp:4384-4388). -/
def loopIterations (extent : Int) : List Int :=
  (List.range extent.toNat).map Nat.cast

/-- C10: when the vector subscript's extent differs from the
already-computed destination extent in that dimension, the governing
extent for that dimension becomes the smaller of the two (a run-time
minimum), so the loop never iterates past the shorter of the vector and
the destination extent. -/
theorem genVectorSubscriptArrayFetchExtent_min (vecExtent destExtent : Int)
    (sameSSAValue : Bool)
    (hsame : sameSSAValue = true → vecExtent = destExtent) :
    genVectorSubscriptArrayFetchExtent vecExtent destExtent sameSSAValue =
      min vecExtent destExtent ∧
      (∀ i ∈ loopIterations
          (genVectorSubscriptArrayFetchExtent vecExtent destExtent
            sameSSAValue),
        i < vecExtent ∧ i < destExtent) := by
  have hval : genVectorSubscriptArrayFetchExtent vecExtent destExtent
      sameSSAValue = min vecExtent destExtent := by
    cases sameSSAValue with
    | true =>
      simp [genVectorSubscriptArrayFetchExtent, hsame rfl]
    | false =>
      simp only [genVectorSubscriptArrayFetchExtent, Bool.false_eq_true,
        if_false]
      rcases lt_trichotomy vecExtent destExtent with h | h | h
      · rw [if_neg (by omega), min_eq_left (by omega)]
      · rw [h]
        simp
      · rw [if_pos (by omega), min_eq_right (by omega)]
  refine ⟨hval, ?_⟩
  intro i hi
  rw [hval] at hi
  unfold loopIterations at hi
  obtain ⟨n, hn, rfl⟩ := List.mem_map.mp hi
  rw [List.mem_range] at hn
  have h1 := Int.lt_toNat.mp hn
  have h2 := min_le_left vecExtent destExtent
  have h3 := min_le_right vecExtent destExtent
  exact ⟨by omega, by omega⟩

/-- Witness for `genVectorSubscriptArrayFetchExtent_min` at vector extent 5
and destination extent 3 (distinct SSA values). -/
theorem genVectorSubscriptArrayFetchExtent_min_witness :
    genVectorSubscriptArrayFetchExtent 5 3 false = min 5 3 ∧
      (∀ i ∈ loopIterations (genVectorSubscriptArrayFetchExtent 5 3 false),
        i < 5 ∧ i < 3) :=
  genVectorSubscriptArrayFetchExtent_min 5 3 false (by simp)

/-! ## C9: vector (indirection) subscripts

Model of the `IndirectSubscriptIntegerExpr` case of
`ArrayExprLowering::genSliceIndices` (ConvertExpr.cpp:5575-5615) and of
`ArrayExprLowering::genAccessByVector` (ConvertExpr.cpp:5494-5503), for a
rank-1 reference `a(v)`.  `genVectorSubscriptArrayFetch` pre-evaluates the
subscript expression into a one-dimensional array value before the loop
nest is built; that index source is the list `indexSource` here.
Iteration vectors are lists of (index-typed) integers.
-/

/-- `ArrayExprLowering::genAccessByVector` (ConvertExpr.cpp:5494-5503):
build a one-dimensional iteration space from the iteration value at `dim`
and fetch one value from the pre-evaluated index source with it. -/
def genAccessByVector (indexSource : List Int) (iters : List Int)
    (dim : Nat) : Int :=
  indexSource.getD (iters.getD dim 0).toNat 0

/-- The projection continuation built for a vector subscript in
`genSliceIndices` (ConvertExpr.cpp:5594-5606): read one index via
`genAccessByVector`, normalize it by subtracting the referenced array's
declared lower bound in that dimension (`arith.subi val, lb`, line
5602-5603), and replace the iteration value at `subsIndex` with the
result. -/
def vectorSubscriptPC (indexSource : List Int) (lb : Int) (subsIndex : Nat)
    (iters : List Int) : List Int :=
  let val := genAccessByVector indexSource iters subsIndex
  iters.set subsIndex (val - lb)

/-- The element fetch a rank-1 array-reference continuation performs at an
iteration point (`fir.array_fetch` on the operand's `fir.array_load`,
ConvertExpr.cpp:5984-5987); the adjusted iteration value is a zero-based
index into the array's storage. -/
def fetchElement (a : List Int) (iters : List Int) : Int :=
  a.getD (iters.getD 0 0).toNat 0

/-- The per-iteration values produced when the right-hand side `a(v)` of a
rank-1 assignment of extent `extent` is lowered: at iteration `i` the
continuation composition applies the vector-subscript projection and then
fetches the element. -/
def lowerVectorSubscriptRhs (a indexSource : List Int) (lb : Int)
    (extent : Nat) : List Int :=
  (List.range extent).map fun (i : Nat) =>
    fetchElement a (vectorSubscriptPC indexSource lb 0 [(i : Int)])

/-- C9: for an array reference with a vector subscript, the continuation
reads, at iteration `i`, the `i`-th value of the pre-evaluated index
source and normalizes it by subtracting the referenced array's declared
lower bound; consequently `a(v)` with `v = [3,1,2]` and lower bound 1
fetches `a(3), a(1), a(2)` in that order for a destination of extent 3. -/
theorem lowerVectorSubscriptRhs_spec :
    (∀ (a v : List Int) (lb : Int) (extent i : Nat), i < extent →
      (lowerVectorSubscriptRhs a v lb extent).getD i 0 =
        a.getD ((v.getD i 0) - lb).toNat 0) ∧
      (∀ x y z : Int,
        lowerVectorSubscriptRhs [x, y, z] [3, 1, 2] 1 3 = [z, x, y]) := by
  constructor
  · intro a v lb extent i hi
    rw [lowerVectorSubscriptRhs, List.getD_eq_getElem?_getD,
      List.getElem?_map, List.getElem?_range hi]
    simp [fetchElement, vectorSubscriptPC, genAccessByVector]
  · intro x y z
    unfold lowerVectorSubscriptRhs
    rw [show List.range 3 = [0, 1, 2] by rfl]
    simp [fetchElement, vectorSubscriptPC, genAccessByVector]

/-- Witness for `lowerVectorSubscriptRhs_spec`: the first conjunct applied
at the example of the second. -/
theorem lowerVectorSubscriptRhs_spec_witness :
    (lowerVectorSubscriptRhs [10, 20, 30] [3, 1, 2] 1 3).getD 0 0 =
      ([10, 20, 30] : List Int).getD ((3 : Int) - 1).toNat 0 :=
  lowerVectorSubscriptRhs_spec.1 [10, 20, 30] [3, 1, 2] 1 3 0 (by decide)

/-! ## C6: the `unordered` loop flag

Model of the `unordered` state of `ArrayExprLowering` (field with
initializer `true`, ConvertExpr.cpp:7366; accessors
`isUnordered`/`setUnordered`, lines 7312-7314), of the clearing performed
by `genElementalUserDefinedProcRef` (lines 4784-4800) and by the elemental
intrinsic case of `genProcRef` (lines 5009-5017), and of the loop
generation in `genImplicitLoops` (lines 4396-4416), which tags every
generated `fir.do_loop` with `isUnordered()`.
-/

/-- A passed entity of a caller interface
(`Fortran::lower::CallerInterface::PassedEntity`), restricted to the
flags `genCopyIn`/`genElementalUserDefinedProcRef` consult. -/
structure PassedEntity where
  mayBeModifiedByCall : Bool
  mayBeReadByCall : Bool
  mayRequireIntentoutFinalization : Bool
  hasAllocatableAttribute : Bool
  deriving DecidableEq, Repr

/-- An elemental user procedure reference, restricted to what the
`unordered` updates consult: whether the procedure symbol is pure, and the
passed arguments. -/
structure ElementalProcRef where
  isPureProcedure : Bool
  passedArguments : List PassedEntity
  deriving DecidableEq, Repr

/-- The `setUnordered` calls of `genElementalUserDefinedProcRef`
(ConvertExpr.cpp:4784-4800): clear the flag if the procedure is not pure
(10.1.4 p5), then clear it again for every argument that may be modified
by the call (15.8.3 p1). -/
def genElementalUserDefinedProcRefUnordered (procRef : ElementalProcRef)
    (unordered : Bool) : Bool :=
  let u1 := if !procRef.isPureProcedure then false else unordered
  procRef.passedArguments.foldl
    (fun u arg => if arg.mayBeModifiedByCall then false else u) u1

/-- The `setUnordered` call in the elemental specific-intrinsic case of
`genProcRef` (ConvertExpr.cpp:5009-5017): an elemental intrinsic
subroutine (no return type: MVBITS, with an intent(inout) argument)
clears the flag; elemental intrinsic functions, all pure, leave it. -/
def genProcRefIntrinsicUnordered (hasRetTy : Bool)
    (unordered : Bool) : Bool :=
  if !hasRetTy then false else unordered

/-- The initial value of the `unordered` field (ConvertExpr.cpp:7366). -/
def initialUnordered : Bool := true

/-- A generated `fir.do_loop`: its extent and whether it carries the
unordered attribute. -/
structure DoLoop where
  extent : Nat
  unordered : Bool
  deriving DecidableEq, Repr

/-- The loops built by `genImplicitLoops` (ConvertExpr.cpp:4396-4416):
one `fir.do_loop` per extent (created from the reversed upper-bound list,
line 4396), every one carrying `isUnordered()` (lines 4404, 4411). -/
def genImplicitLoopsLoops (shape : List Nat) (unorderedFlag : Bool) :
    List DoLoop :=
  shape.reverse.map fun e => { extent := e, unordered := unorderedFlag }

/-- Run-time index order of a `fir.do_loop` that is *not* unordered: the
closed interval `[0, extent-1]` in increasing order
(ConvertExpr.cpp:4384-4388). -/
def orderedLoopIndices (l : DoLoop) : List Nat :=
  List.range l.extent

/-- Folding the per-argument `setUnordered(false)` updates clears the flag
exactly when some argument may be modified by the call. -/
theorem foldl_clearUnordered (l : List PassedEntity) (b : Bool) :
    l.foldl (fun u arg => if arg.mayBeModifiedByCall then false else u) b =
      (b && l.all fun a => !a.mayBeModifiedByCall) := by
  induction l generalizing b with
  | nil => simp
  | cons a t ih =>
    rw [List.foldl_cons, ih]
    cases h : a.mayBeModifiedByCall <;> simp [h]

/-- C6: the loop nest defaults to `unordered = true`; lowering an
elemental reference to an impure procedure, or an elemental call with an
actual argument that may be modified by the callee, clears `unordered` to
`false` (likewise an elemental intrinsic subroutine), while a pure
elemental reference with no modifiable arguments leaves it `true`; every
generated loop carries the resulting flag, and a loop whose flag is
cleared runs its indices in increasing order. -/
theorem unordered_flag_spec (p : ElementalProcRef) (shape : List Nat) :
    initialUnordered = true ∧
      genElementalUserDefinedProcRefUnordered p initialUnordered =
        (p.isPureProcedure &&
          p.passedArguments.all fun a => !a.mayBeModifiedByCall) ∧
      (∀ u, genProcRefIntrinsicUnordered false u = false ∧
        genProcRefIntrinsicUnordered true u = u) ∧
      (∀ u, ∀ l ∈ genImplicitLoopsLoops shape u, l.unordered = u) ∧
      (∀ l ∈ genImplicitLoopsLoops shape false,
        List.Pairwise (· < ·) (orderedLoopIndices l)) := by
  refine ⟨rfl, ?_, ?_, ?_, ?_⟩
  · rw [genElementalUserDefinedProcRefUnordered, foldl_clearUnordered]
    cases h : p.isPureProcedure <;> simp [h, initialUnordered]
  · intro u
    exact ⟨rfl, rfl⟩
  · intro u l hl
    simp only [genImplicitLoopsLoops, List.mem_map] at hl
    obtain ⟨e, _, rfl⟩ := hl
    rfl
  · intro l hl
    exact List.pairwise_lt_range _

/-! ## C5: masks evaluated once per WHERE/FORALL region

Model of `ArrayExprLowering::genMasks` (ConvertExpr.cpp:4296-4373,
non-ragged branch, lines 4301-4321) and of the fact that every
`ArrayExprLowering` constructor call — one per assignment statement of the
region — runs `genMasks` before the assignment itself is lowered
(ConvertExpr.cpp:7246-7255), while all statements of one region share the
region's `ImplicitIterSpace`.
-/

/-- Events observable while lowering the assignment statements of one
WHERE region: materialization of a mask expression
(`createSomeArrayTempValue`, ConvertExpr.cpp:4317, where any side effect
embedded in the mask expression happens), and the lowering of one
assignment body. -/
inductive LowerEvent where
  | evalMask (e : Nat)
  | assignStmt (k : Nat)
  deriving DecidableEq, Repr

/-- Modelled from the spec: the `ImplicitIterSpace` shared by all
assignment statements of one WHERE region (its class lives in
`flang/include/flang/Lower/IterationSpace.h`, outside the shown sources).
Per the spec's Mask Binding data model, `exprs` is the list the source's
`getExprs()` returns (mask expressions identified by number, duplicates
possible across statements), and `lowered` is the lookaside consulted by
`isLowered` and extended by `bind`: a mask expression is in `lowered`
exactly when it has already been lowered for this region. -/
structure ImplicitIterSpace where
  exprs : List Nat
  lowered : List Nat
  deriving DecidableEq, Repr

/-- The loop of `genMasks` (ConvertExpr.cpp:4301-4321), non-ragged branch:
for each mask expression `e` with `!implicitSpace->isLowered(e)`,
materialize a temporary for it (an `evalMask` event) and `bind` it;
already-lowered expressions are skipped.  Returns the updated lookaside
and the events emitted. -/
def genMasksGo : List Nat → List Nat → List Nat × List LowerEvent
  | [], lowered => (lowered, [])
  | e :: rest, lowered =>
    if e ∈ lowered then
      genMasksGo rest lowered
    else
      let r := genMasksGo rest (e :: lowered)
      (r.1, .evalMask e :: r.2)

/-- `ArrayExprLowering::genMasks` over the region's shared space. -/
def genMasks (s : ImplicitIterSpace) : ImplicitIterSpace × List LowerEvent :=
  let r := genMasksGo s.exprs s.lowered
  ({ s with lowered := r.1 }, r.2)

/-- Lowering `k` assignment statements governed by one region: each
statement constructs an `ArrayExprLowering`, whose constructor
(ConvertExpr.cpp:7246-7255) calls `genMasks()` before the assignment
itself is lowered, and the updated shared space is threaded to the next
statement. -/
def lowerRegionStmts (s : ImplicitIterSpace) : Nat → List LowerEvent
  | 0 => []
  | k + 1 =>
    let r := genMasks s
    r.2 ++ LowerEvent.assignStmt k :: lowerRegionStmts r.1 k

/-- The full event trace of a region with mask expressions `exprs` and `k`
assignment statements; at region entry nothing is lowered yet. -/
def regionTrace (exprs : List Nat) (k : Nat) : List LowerEvent :=
  lowerRegionStmts ⟨exprs, []⟩ k

/-- The lookaside returned by `genMasksGo` holds exactly the old entries
and the processed expressions. -/
theorem mem_genMasksGo_fst (exprs lowered : List Nat) (x : Nat) :
    x ∈ (genMasksGo exprs lowered).1 ↔ x ∈ exprs ∨ x ∈ lowered := by
  induction exprs generalizing lowered with
  | nil => simp [genMasksGo]
  | cons e rest ih =>
    by_cases h : e ∈ lowered
    · rw [genMasksGo, if_pos h]
      rw [ih]
      constructor
      · rintro (hx | hx)
        · exact Or.inl (List.mem_cons_of_mem _ hx)
        · exact Or.inr hx
      · rintro (hx | hx)
        · rcases List.mem_cons.mp hx with rfl | hx
          · exact Or.inr h
          · exact Or.inl hx
        · exact Or.inr hx
    · rw [genMasksGo, if_neg h]
      rw [ih]
      simp only [List.mem_cons]
      tauto

/-- Each mask expression is materialized by `genMasksGo` exactly once if
it occurs in the worklist and is not yet lowered, and zero times
otherwise. -/
theorem count_genMasksGo (exprs lowered : List Nat) (e : Nat) :
    ((genMasksGo exprs lowered).2.count (LowerEvent.evalMask e)) =
      if e ∈ exprs ∧ e ∉ lowered then 1 else 0 := by
  induction exprs generalizing lowered with
  | nil => simp [genMasksGo]
  | cons x rest ih =>
    by_cases hx : x ∈ lowered
    · rw [genMasksGo, if_pos hx, ih]
      by_cases hex : e = x
      · subst hex
        simp [hx]
      · simp only [List.mem_cons]
        by_cases her : e ∈ rest <;> by_cases hel : e ∈ lowered <;>
          simp [her, hel, hex]
    · rw [genMasksGo, if_neg hx]
      simp only [List.count_cons, ih]
      by_cases hex : e = x
      · subst hex
        simp [hx]
      · have hne : ¬(LowerEvent.evalMask e = LowerEvent.evalMask x) := by
          simpa using hex
        simp only [List.mem_cons, hne, if_false]
        by_cases her : e ∈ rest <;> by_cases hel : e ∈ lowered <;>
          (simp [her, hel, hex]; try omega)

/-- All events emitted by `genMasksGo` are mask materializations. -/
theorem genMasksGo_events (exprs lowered : List Nat) :
    ∀ ev ∈ (genMasksGo exprs lowered).2, ∃ m, ev = LowerEvent.evalMask m := by
  induction exprs generalizing lowered with
  | nil => simp [genMasksGo]
  | cons x rest ih =>
    by_cases hx : x ∈ lowered
    · rw [genMasksGo, if_pos hx]
      exact ih lowered
    · rw [genMasksGo, if_neg hx]
      intro ev hev
      rcases List.mem_cons.mp hev with rfl | hev
      · exact ⟨x, rfl⟩
      · exact ih (x :: lowered) ev hev

/-- Once every mask expression of the region is in the lookaside, no later
statement of the region materializes any mask again. -/
theorem no_evalMask_after_lowered (s : ImplicitIterSpace) (k : Nat)
    (hsub : ∀ x ∈ s.exprs, x ∈ s.lowered) :
    ∀ e : Nat, LowerEvent.evalMask e ∉ lowerRegionStmts s k := by
  induction k generalizing s with
  | zero => simp [lowerRegionStmts]
  | succ k ih =>
    intro e
    have hgo : ∀ exprs lowered, (∀ x ∈ exprs, x ∈ lowered) →
        genMasksGo exprs lowered = (lowered, []) := by
      intro exprs
      induction exprs with
      | nil => intro lowered _; rfl
      | cons x rest ihe =>
        intro lowered hall
        rw [genMasksGo, if_pos (hall x (List.mem_cons_self x rest))]
        exact ihe lowered fun y hy => hall y (List.mem_cons_of_mem x hy)
    rw [lowerRegionStmts]
    simp only [genMasks, hgo s.exprs s.lowered hsub]
    intro hmem
    rcases List.mem_append.mp hmem with h | h
    · simp at h
    · rcases List.mem_cons.mp h with h | h
      · simp at h
      · exact ih { s with lowered := s.lowered } (by simpa using hsub) e h

/-- C5: each mask expression of a WHERE region is materialized exactly
once per region, before any assignment governed by the region, no matter
how many (`k ≥ 1`) assignment statements the region contains: the region
trace splits into a prefix of mask materializations — containing the one
materialization of the given mask and no assignment — followed by a tail
containing no mask materialization at all. -/
theorem mask_evaluated_once_per_region (exprs : List Nat) (k : Nat)
    (hk : 0 < k) (e : Nat) (he : e ∈ exprs) :
    (regionTrace exprs k).count (LowerEvent.evalMask e) = 1 ∧
      ∃ p q, regionTrace exprs k = p ++ q ∧
        (∀ ev ∈ p, ∃ m, ev = LowerEvent.evalMask m) ∧
        (∀ m : Nat, LowerEvent.evalMask m ∉ q) ∧
        LowerEvent.evalMask e ∈ p ∧
        (∀ i, LowerEvent.assignStmt i ∉ p) := by
  obtain ⟨k', rfl⟩ : ∃ k', k = k' + 1 := ⟨k - 1, by omega⟩
  have hstep : regionTrace exprs (k' + 1) =
      (genMasksGo exprs []).2 ++
        LowerEvent.assignStmt k' ::
          lowerRegionStmts ⟨exprs, (genMasksGo exprs []).1⟩ k' := by
    rfl
  set p := (genMasksGo exprs []).2 with hp
  set q := LowerEvent.assignStmt k' ::
    lowerRegionStmts ⟨exprs, (genMasksGo exprs []).1⟩ k' with hq
  have hcount_p : p.count (LowerEvent.evalMask e) = 1 := by
    rw [hp, count_genMasksGo]
    simp [he]
  have hnomask_q : ∀ m : Nat, LowerEvent.evalMask m ∉ q := by
    intro m hm
    rcases List.mem_cons.mp hm with h | h
    · simp at h
    · refine no_evalMask_after_lowered ⟨exprs, (genMasksGo exprs []).1⟩ k'
        ?_ m h
      intro x hx
      exact (mem_genMasksGo_fst exprs [] x).mpr (Or.inl hx)
  have hall_p : ∀ ev ∈ p, ∃ m, ev = LowerEvent.evalMask m :=
    genMasksGo_events exprs []
  refine ⟨?_, p, q, hstep, hall_p, hnomask_q, ?_, ?_⟩
  · rw [hstep, List.count_append, hcount_p]
    have : q.count (LowerEvent.evalMask e) = 0 :=
      List.count_eq_zero.mpr (hnomask_q e)
    rw [this]
  · exact List.count_pos_iff.mp (by rw [hcount_p]; omega)
  · intro i hi
    obtain ⟨m, hm⟩ := hall_p _ hi
    simp at hm

/-- Witness for `mask_evaluated_once_per_region`: a region with masks
`[7, 7, 9]` (mask 7 referenced by two statements) and `k = 3` assignment
statements evaluates mask 7 exactly once. -/
theorem mask_evaluated_once_per_region_witness :
    (regionTrace [7, 7, 9] 3).count (LowerEvent.evalMask 7) = 1 :=
  (mask_evaluated_once_per_region [7, 7, 9] 3 (by decide) 7
    (by decide)).1

/-- Witness for `unordered_flag_spec`: a pure elemental reference with one
unmodifiable argument keeps the flag, and an ordered loop of extent 2 runs
its indices in increasing order. -/
theorem unordered_flag_spec_witness :
    genElementalUserDefinedProcRefUnordered
        ⟨true, [⟨false, true, false, false⟩]⟩ initialUnordered = true ∧
      List.Pairwise (· < ·) (orderedLoopIndices ⟨2, false⟩) := by
  obtain ⟨_, h2, _, _, h5⟩ :=
    unordered_flag_spec ⟨true, [⟨false, true, false, false⟩]⟩ [2]
  exact ⟨by rw [h2]; rfl, h5 ⟨2, false⟩ (by decide)⟩

/-! ## C7 and C8: runtime copy-in / copy-out

Model of `ScalarExprLowering::genCopyIn` (ConvertExpr.cpp:2190-2339),
`ScalarExprLowering::genCopyOut` (ConvertExpr.cpp:2343-2406),
`ScalarExprLowering::genArrayTempFromMold` (ConvertExpr.cpp:2056-2082) and
the `CopyOutPair` record (ConvertExpr.cpp:2162-2171).

The claims are about the run-time behaviour of the generated code, so
`genCopyIn` is denoted directly on a run-time scenario: `contiguous` is
the value the generated `IsContiguous` runtime call yields, and the
`restrictCopyAtRuntime` guard (when given) carries its run-time value.  A
generated `fir.if` then contributes the events of the branch the scenario
selects.  `inline-copyinout-for-boxes` keeps its default (`false`,
ConvertExpr.cpp:126-130); the runtime `AssignTemporary`/`CopyOutAssign`
paths and the inline loop paths emit the same abstract copy events.
-/

/-- Run-time events of the generated copy-in/copy-out code.
`contiguityTest` is the `IsContiguous` runtime call on the descriptor
(ConvertExpr.cpp:2205-2206) — a descriptor inquiry, not a data access;
`allocTemp` is the `fir.allocmem` of `genArrayTempFromMold` with the
mold's extents (line 2077); `copyIntoTemp` is the element copy into the
temporary (lines 2235/2247); `writeBack` is the copy-out assignment into
the original (lines 2350/2397); `freeTemp` destroys the temporary (lines
2362/2397). -/
inductive CopyEvent where
  | contiguityTest (box : Nat)
  | allocTemp (addr : Nat) (shape : List Nat)
  | copyIntoTemp (srcAddr dstAddr : Nat)
  | writeBack (srcAddr dstAddr : Nat)
  | freeTemp (addr : Nat)
  deriving DecidableEq, Repr

/-- An actual array argument as `genCopyIn` sees it: its identity, its
run-time base address (`0` encodes a null/absent base), its run-time
extents, and whether it is `fir.box`-typed (so that contiguity is unknown
at compile time and tested at run time, ConvertExpr.cpp:2198-2207). -/
structure ActualArg where
  id : Nat
  baseAddr : Nat
  shape : List Nat
  isBox : Bool
  deriving DecidableEq, Repr

/-- The null address produced by `createNullConstant`
(ConvertExpr.cpp:2328) on the absent branch. -/
def nullAddr : Nat := 0

/-- The `CopyOutPair` record (ConvertExpr.cpp:2162-2171), with the
optional runtime guard carrying its run-time value. -/
structure CopyOutPair where
  varAddr : Nat
  tempAddr : Nat
  argMayBeModifiedByCall : Bool
  restrictCopyAndFreeAtRuntime : Option Bool
  deriving DecidableEq, Repr

/-- Result of `genCopyIn` on one run-time scenario: the address passed to
the callee, the events the generated code performs, and the registered
copy-out pairs. -/
structure CopyInResult where
  addr : Nat
  events : List CopyEvent
  pairs : List CopyOutPair
  deriving DecidableEq, Repr

/-- The `doCopyIn` lambda (ConvertExpr.cpp:2209-2250):
`genArrayTempFromMold` allocates a temporary with the mold's extents, and
the temporary is filled from the original unless the callee can never read
the argument — `!mayBeReadByCall && !mayRequireIntentoutFinalization &&
!hasAllocatableAttribute` (lines 2211-2233), in which case only
default-initialization (no data copy) happens. -/
def doCopyInEvents (actualArg : ActualArg) (arg : PassedEntity)
    (tempAddr : Nat) : List CopyEvent :=
  CopyEvent.allocTemp tempAddr actualArg.shape ::
    (if !arg.mayBeReadByCall && !arg.mayRequireIntentoutFinalization &&
        !arg.hasAllocatableAttribute then
      []
    else
      [CopyEvent.copyIntoTemp actualArg.baseAddr tempAddr])

/-- `ScalarExprLowering::genCopyIn` (ConvertExpr.cpp:2190-2339) denoted on
a run-time scenario.  For a box-typed actual, the `IsContiguous` runtime
call is generated before (and outside) any presence guard (lines
2203-2207).  Without a `restrictCopyAtRuntime` guard: box arguments branch
on contiguity — `noCopy` passes `fir.box_addr` of the original (lines
2252-2256), otherwise `doCopyIn` runs (lines 2275-2294) — and non-box
arguments always copy in (lines 2296-2298).  With a guard, the whole
copy-in sits under `fir.if (restrictCopyAtRuntime)` and the else branch
produces only a null address (lines 2301-2331).  `combinedCondition`
(lines 2258-2273) arms the pair's runtime guard with
`restrict && !contiguous` for boxes, or leaves `restrict` for non-boxes. -/
def genCopyIn (actualArg : ActualArg) (arg : PassedEntity) (byValue : Bool)
    (restrictCopyAtRuntime : Option Bool) (tempAddr : Nat)
    (contiguous : Bool) : CopyInResult :=
  let doCopyOut := !byValue && arg.mayBeModifiedByCall
  let testEvents :=
    if actualArg.isBox then [CopyEvent.contiguityTest actualArg.id] else []
  match restrictCopyAtRuntime with
  | none =>
    if actualArg.isBox then
      let addr := if contiguous then actualArg.baseAddr else tempAddr
      let copyEvents :=
        if contiguous then [] else doCopyInEvents actualArg arg tempAddr
      { addr := addr
        events := testEvents ++ copyEvents
        pairs := [⟨actualArg.baseAddr, addr, doCopyOut, some (!contiguous)⟩] }
    else
      { addr := tempAddr
        events := doCopyInEvents actualArg arg tempAddr
        pairs := [⟨actualArg.baseAddr, tempAddr, doCopyOut, none⟩] }
  | some present =>
    let addr :=
      if present then
        if actualArg.isBox && contiguous then actualArg.baseAddr else tempAddr
      else nullAddr
    let innerEvents :=
      if present then
        if actualArg.isBox && contiguous then []
        else doCopyInEvents actualArg arg tempAddr
      else []
    let guard := if actualArg.isBox then present && !contiguous else present
    { addr := addr
      events := testEvents ++ innerEvents
      pairs := [⟨actualArg.baseAddr, addr, doCopyOut, some guard⟩] }

/-- The `doCopyOut` lambda of `genCopyOut` (ConvertExpr.cpp:2347-2398):
write the temporary back into the original only when the argument may have
been modified by the call, then free the temporary unconditionally along
that path. -/
def doCopyOutEvents (pair : CopyOutPair) : List CopyEvent :=
  (if pair.argMayBeModifiedByCall then
    [CopyEvent.writeBack pair.tempAddr pair.varAddr]
  else []) ++ [CopyEvent.freeTemp pair.tempAddr]

/-- `ScalarExprLowering::genCopyOut` (ConvertExpr.cpp:2343-2406) denoted
on the pair's run-time guard value: without a guard, copy-out runs;
with a guard, it runs only when the guard holds (lines 2400-2405). -/
def genCopyOut (pair : CopyOutPair) : List CopyEvent :=
  match pair.restrictCopyAndFreeAtRuntime with
  | none => doCopyOutEvents pair
  | some g => if g then doCopyOutEvents pair else []

/-! ## Theorems for C7 -/

/-- C7, counterexample.  For a box-typed, non-contiguous actual argument
whose callee cannot read it (intent(out) with no finalization need and a
non-allocatable dummy: `mayBeReadByCall = false`,
`mayRequireIntentoutFinalization = false`, `hasAllocatableAttribute =
false`), the non-contiguous branch allocates the same-shape temporary but
does *not* fill it from the original — the generated events are exactly
the contiguity test and the allocation, with no copy — contradicting the
claim that the temporary is always filled from the original on that
branch. -/
theorem genCopyIn_no_fill_for_unread_arg :
    (genCopyIn ⟨1, 7, [4], true⟩ ⟨true, false, false, false⟩ false none 9
        false).events =
      [CopyEvent.contiguityTest 1, CopyEvent.allocTemp 9 [4]] := by
  decide

/-- C7, amended: for every actual array argument that must be contiguous
but is not proven contiguous at compile time, copy-in emits a runtime
contiguity test; on the contiguous branch the original base address is
passed and no temporary is created; on the non-contiguous branch a
same-shape contiguous temporary is allocated, filled from the original
whenever the callee may read the argument (or intent(out) finalization may
occur, or the dummy is allocatable — not filled otherwise), and the
registered Copy-Out Pair's runtime guard is armed exactly on that
branch. -/
theorem genCopyIn_contiguity_spec (actualArg : ActualArg)
    (arg : PassedEntity) (byValue : Bool) (tempAddr : Nat)
    (contiguous : Bool) (hbox : actualArg.isBox = true) :
    CopyEvent.contiguityTest actualArg.id ∈
        (genCopyIn actualArg arg byValue none tempAddr contiguous).events ∧
      (contiguous = true →
        (genCopyIn actualArg arg byValue none tempAddr contiguous).addr =
            actualArg.baseAddr ∧
          (genCopyIn actualArg arg byValue none tempAddr contiguous).events =
            [CopyEvent.contiguityTest actualArg.id] ∧
          (genCopyIn actualArg arg byValue none tempAddr
              contiguous).pairs =
            [⟨actualArg.baseAddr, actualArg.baseAddr,
              !byValue && arg.mayBeModifiedByCall, some false⟩]) ∧
      (contiguous = false →
        (genCopyIn actualArg arg byValue none tempAddr contiguous).addr =
            tempAddr ∧
          CopyEvent.allocTemp tempAddr actualArg.shape ∈
            (genCopyIn actualArg arg byValue none tempAddr
              contiguous).events ∧
          ((arg.mayBeReadByCall || arg.mayRequireIntentoutFinalization ||
              arg.hasAllocatableAttribute) = true →
            CopyEvent.copyIntoTemp actualArg.baseAddr tempAddr ∈
              (genCopyIn actualArg arg byValue none tempAddr
                contiguous).events) ∧
          (genCopyIn actualArg arg byValue none tempAddr contiguous).pairs =
            [⟨actualArg.baseAddr, tempAddr,
              !byValue && arg.mayBeModifiedByCall, some true⟩]) := by
  refine ⟨?_, ?_, ?_⟩
  · simp [genCopyIn, hbox]
  · intro hc
    subst hc
    simp [genCopyIn, hbox]
  · intro hc
    subst hc
    refine ⟨by simp [genCopyIn, hbox], ?_, ?_, by simp [genCopyIn, hbox]⟩
    · simp [genCopyIn, hbox, doCopyInEvents]
    · intro hread
      simp only [genCopyIn, hbox, doCopyInEvents, if_true, Bool.and_self]
      have : ¬(!arg.mayBeReadByCall &&
          !arg.mayRequireIntentoutFinalization &&
          !arg.hasAllocatableAttribute) = true := by
        intro h
        simp only [Bool.and_eq_true, Bool.not_eq_true'] at h
        rcases h with ⟨⟨h1, h2⟩, h3⟩
        rw [h1, h2, h3] at hread
        simp at hread
      simp [this]

/-- Witness for `genCopyIn_contiguity_spec` at a readable box argument on
the non-contiguous branch: the temporary is allocated and filled. -/
theorem genCopyIn_contiguity_spec_witness :
    CopyEvent.allocTemp 9 [4] ∈
        (genCopyIn ⟨1, 7, [4], true⟩ ⟨true, true, false, false⟩ false none 9
          false).events ∧
      CopyEvent.copyIntoTemp 7 9 ∈
        (genCopyIn ⟨1, 7, [4], true⟩ ⟨true, true, false, false⟩ false none 9
          false).events := by
  obtain ⟨-, -, h⟩ := genCopyIn_contiguity_spec ⟨1, 7, [4], true⟩
    ⟨true, true, false, false⟩ false 9 false rfl
  obtain ⟨-, h2, h3, -⟩ := h rfl
  exact ⟨h2, h3 rfl⟩

/-! ## Theorems for C8 -/

/-- C8: when an actual array argument may be dynamically absent and the
presence guard is false at run time, the generated copy-in performs no
temporary allocation, no address arithmetic on the base, and no element
copy (only the descriptor-level contiguity inquiry precedes the guard),
the address produced is the null address, and every registered Copy-Out
Pair carries the same false runtime guard, so the matching copy-out emits
no write-back and no free. -/
theorem genCopyIn_absent_guard (actualArg : ActualArg) (arg : PassedEntity)
    (byValue : Bool) (tempAddr : Nat) (contiguous : Bool) :
    (genCopyIn actualArg arg byValue (some false) tempAddr
          contiguous).addr = nullAddr ∧
      (genCopyIn actualArg arg byValue (some false) tempAddr
          contiguous).events =
        (if actualArg.isBox then [CopyEvent.contiguityTest actualArg.id]
         else []) ∧
      (∀ p ∈ (genCopyIn actualArg arg byValue (some false) tempAddr
          contiguous).pairs,
        p.restrictCopyAndFreeAtRuntime = some false ∧ genCopyOut p = []) := by
  refine ⟨rfl, by simp [genCopyIn], ?_⟩
  intro p hp
  simp only [genCopyIn, List.mem_singleton] at hp
  subst hp
  cases hb : actualArg.isBox <;>
    simp [hb, genCopyOut]

/-- Witness for `genCopyIn_absent_guard` at a concrete absent box-typed
argument. -/
theorem genCopyIn_absent_guard_witness :
    (genCopyIn ⟨1, 7, [4], true⟩ ⟨true, true, false, false⟩ false
          (some false) 9 false).addr = nullAddr ∧
      (genCopyIn ⟨1, 7, [4], true⟩ ⟨true, true, false, false⟩ false
          (some false) 9 false).events =
        [CopyEvent.contiguityTest 1] := by
  obtain ⟨h1, h2, -⟩ := genCopyIn_absent_guard ⟨1, 7, [4], true⟩
    ⟨true, true, false, false⟩ false 9 false
  exact ⟨h1, by simpa using h2⟩

/-! ## C1: the load-once / merge-once array-assignment protocol

Model of `ArrayExprLowering::lowerArrayAssignment`
(ConvertExpr.cpp:3309-3328) for an assignment `dest = rhsArr(σ)` whose
right-hand side reads an array (possibly `dest` itself) through a pure
index rearrangement `σ`, together with the parts of the pipeline it
drives: the `genarr` base case that produces the `fir.array_load` ops and
records the destination (5883-5908, 5962-5988), `genIterSpace` /
`genImplicitLoops` (4445-4462), `defaultStoreToDestination` /
`ccStoreToDest` producing one `fir.array_update` per iteration
(4039-4078, 5905-5908), and the final `fir.array_merge_store`
(3324-3326).

The generated statement is reified as a list of `FirOp`s, and an
interpreter gives the FIR run-time semantics of those ops:
`fir.array_load` binds a conceptual snapshot of the array's value,
`fir.array_update` is a pure functional update threaded through the
loop-carried inner argument, and only `fir.array_merge_store` writes
memory.
-/

/-- `ConstituentSemantics` (ConvertExpr.cpp:161-192). -/
inductive ConstituentSemantics where
  | DataValue
  | DataAddr
  | BoxValue
  | BoxAddr
  | RefTransparent
  | ByValueArg
  | CopyInCopyOut
  | ProjectedCopyInCopyOut
  | CustomCopyInCopyOut
  | RefOpaque
  deriving DecidableEq, Repr

/-- Identifier of an array variable in memory. -/
abbrev ArrId := Nat

/-- The FIR operations generated for one array assignment statement.
`loopNest extent srcIndex` stands for the implicit loop nest whose body,
at iteration `i`, fetches the right-hand-side element at `srcIndex i`
from the operand's load (`fir.array_fetch`, 5984-5987) and updates the
accumulator at `i` (`fir.array_update`, 4074-4076);
`fatalMergeUnloaded` is the (unreachable in correct use) fatal path of
merging a destination that was never loaded. -/
inductive FirOp where
  | arrayLoadDest (arr : ArrId)
  | arrayLoadOperand (arr : ArrId)
  | createTempAndLoad (arr : ArrId)
  | loopNest (extent : Nat) (srcIndex : Nat → Nat)
  | arrayMergeStore (arr : ArrId)
  | fatalMergeUnloaded

/-- A load that plays the destination role (sets the `destination` field,
ConvertExpr.cpp:5904 or 4449-4452). -/
def FirOp.isDestinationLoad : FirOp → Bool
  | .arrayLoadDest _ => true
  | .createTempAndLoad _ => true
  | _ => false

/-- The merge-store of a destination (ConvertExpr.cpp:3324-3326). -/
def FirOp.isMergeStore : FirOp → Bool
  | .arrayMergeStore _ => true
  | _ => false

/-- The compile-time state of `ArrayExprLowering` that the assignment path
threads: the ambient semantics (field `semant`, 7358), the loaded
destination (field `destination`, 7349), whether the store continuation
was set (field `ccStoreToDest`, 7343), and the ops generated so far. -/
structure AELState where
  semant : ConstituentSemantics
  destination : Option ArrId
  ccStoreToDest : Bool
  ops : List FirOp

/-- The base case of `genarr` on an array reference (5741-5989),
restricted to the two semantics the assignment path uses: the
`fir.array_load` is created (5883-5885); under `ProjectedCopyInCopyOut`
the load is recorded as the destination and the update continuation
becomes the store-to-destination (5896-5908); under `RefTransparent` the
load is the operand snapshot whose elements the continuation fetches
(5962-5988). -/
def genarrBase (s : AELState) (arr : ArrId) : AELState :=
  if s.semant = ConstituentSemantics.ProjectedCopyInCopyOut then
    { s with
        ops := s.ops ++ [FirOp.arrayLoadDest arr]
        destination := some arr
        ccStoreToDest := true }
  else
    { s with ops := s.ops ++ [FirOp.arrayLoadOperand arr] }

/-- `genIterSpace` (4445-4462) followed by the loop nest: if no
destination is set yet, a temporary is created and loaded
(`createAndLoadSomeArrayTemp`, 4449-4452); the loop nest over the
iteration shape is then generated with the inner argument seeded from the
destination load (4459-4462), its body applying the rhs continuation and
the store-to-destination continuation once per iteration (4091-4104). -/
def genIterSpaceAndLoop (s : AELState) (tempId : ArrId) (extent : Nat)
    (srcIndex : Nat → Nat) : AELState :=
  let s1 :=
    match s.destination with
    | some _ => s
    | none =>
      { s with
          ops := s.ops ++ [FirOp.createTempAndLoad tempId]
          destination := some tempId }
  { s1 with ops := s1.ops ++ [FirOp.loopNest extent srcIndex] }

/-- `ArrayExprLowering::lowerArrayAssignment` (ConvertExpr.cpp:3309-3328)
for `dest = rhsArr(σ)`: push `ProjectedCopyInCopyOut` (3315); compile the
left-hand side, `ccStoreToDest = genarr(lhs)` (3316) — this is where the
destination is (lazily) loaded; switch to `RefTransparent` (3318); lower
the right-hand side (3319) — `genarr(rhs)` loads the operand, then
`genIterSpace` and the loop nest run; finally create the single
`fir.array_merge_store` of the destination (3324-3326).  Merging with no
loaded destination would be a fatal internal error. -/
def lowerArrayAssignment (dest rhsArr : ArrId) (srcIndex : Nat → Nat)
    (extent : Nat) (tempId : ArrId) : List FirOp :=
  let s0 : AELState :=
    ⟨ConstituentSemantics.ProjectedCopyInCopyOut, none, false, []⟩
  let s1 := genarrBase s0 dest
  let s2 := genarrBase
    { s1 with semant := ConstituentSemantics.RefTransparent } rhsArr
  let s3 := genIterSpaceAndLoop s2 tempId extent srcIndex
  match s3.destination with
  | some d => s3.ops ++ [FirOp.arrayMergeStore d]
  | none => s3.ops ++ [FirOp.fatalMergeUnloaded]

/-- Memory of the generated program: array contents per identifier. -/
abbrev Mem := ArrId → List Int

/-- Run-time state while executing the generated statement: memory, the
value snapshots bound by the destination and operand `fir.array_load`s,
and the loop-carried accumulator (the inner argument). -/
structure RunState where
  mem : Mem
  destSnapshot : List Int
  operandSnapshot : List Int
  acc : List Int

/-- FIR run-time semantics of the generated ops: an `fir.array_load`
binds a snapshot of the array's current value (and the destination load
also seeds the accumulator, which `genIterSpace` takes from
`destination.getResult()`, 4459-4461); the loop nest threads the
accumulator through one functional `fir.array_update` per iteration; only
`fir.array_merge_store` writes memory. -/
def stepOp (r : RunState) : FirOp → RunState
  | .arrayLoadDest a => { r with destSnapshot := r.mem a, acc := r.mem a }
  | .createTempAndLoad a => { r with destSnapshot := r.mem a, acc := r.mem a }
  | .arrayLoadOperand a => { r with operandSnapshot := r.mem a }
  | .loopNest extent srcIndex =>
    { r with
        acc := (List.range extent).foldl
          (fun acc i => acc.set i (r.operandSnapshot.getD (srcIndex i) 0))
          r.acc }
  | .arrayMergeStore a =>
    { r with mem := fun x => if x = a then r.acc else r.mem x }
  | .fatalMergeUnloaded => r

/-- Execute a generated op sequence. -/
def runOps (ops : List FirOp) (r : RunState) : RunState :=
  ops.foldl stepOp r

/-- Initial run-time state: memory only, nothing loaded yet. -/
def initRun (mem : Mem) : RunState := ⟨mem, [], [], []⟩

/-- The op sequence `lowerArrayAssignment` generates, spelt out. -/
theorem lowerArrayAssignment_ops (dest rhsArr : ArrId)
    (srcIndex : Nat → Nat) (extent : Nat) (tempId : ArrId) :
    lowerArrayAssignment dest rhsArr srcIndex extent tempId =
      [FirOp.arrayLoadDest dest, FirOp.arrayLoadOperand rhsArr,
        FirOp.loopNest extent srcIndex, FirOp.arrayMergeStore dest] := rfl

/-- Setting the element just after a prefix replaces the head of the
suffix. -/
theorem set_append_cons (l1 : List Int) (x y : Int) (l2 : List Int) :
    (l1 ++ y :: l2).set l1.length x = l1 ++ x :: l2 := by
  induction l1 with
  | nil => rfl
  | cons a t ih => simp [ih]

/-- `set_append_cons`, with the index given as an equal number. -/
theorem set_append_cons_at (l1 : List Int) (x y : Int) (l2 : List Int)
    (k : Nat) (hk : l1.length = k) :
    (l1 ++ y :: l2).set k x = l1 ++ x :: l2 := by
  subst hk
  exact set_append_cons l1 x y l2

/-- Iterating `set i (f i)` over `i = 0, ..., k-1` rewrites the first `k`
elements of the accumulator to `f 0, ..., f (k-1)` and keeps the rest. -/
theorem foldl_set_range (f : Nat → Int) :
    ∀ (k : Nat) (acc : List Int), k ≤ acc.length →
      (List.range k).foldl (fun a i => a.set i (f i)) acc =
        ((List.range k).map f) ++ acc.drop k := by
  intro k
  induction k with
  | zero => intro acc _; simp
  | succ k ih =>
    intro acc hk
    rw [List.range_succ, List.foldl_append, ih acc (by omega)]
    simp only [List.foldl_cons, List.foldl_nil]
    have hdrop : acc.drop k = acc.get ⟨k, by omega⟩ :: acc.drop (k + 1) :=
      List.drop_eq_getElem_cons (by omega)
    rw [hdrop, set_append_cons_at ((List.range k).map f) (f k) _ _ k
      (by simp)]
    simp [List.range_succ]

/-- C1: for an array assignment `dest = rhsArr(σ)` (the right-hand side a
pure rearrangement of an array, possibly `dest` itself), the generated
statement contains exactly one destination-role load — created lazily
while the left-hand side is compiled, before everything else — and
exactly one merge-store, placed after the loop nest as the last operation;
memory is unchanged by every proper prefix of the statement (no element
write is externally visible before the merge); and the merged destination
value is built from the operand's pre-statement snapshot, so when the
right-hand side references `dest` itself every element read observes the
pre-statement value of `dest`. -/
theorem lowerArrayAssignment_spec (dest rhsArr : ArrId)
    (srcIndex : Nat → Nat) (extent : Nat) (tempId : ArrId) (mem : Mem)
    (hlen : (mem dest).length = extent) :
    ((lowerArrayAssignment dest rhsArr srcIndex extent tempId).countP
        (·.isDestinationLoad) = 1) ∧
      ((lowerArrayAssignment dest rhsArr srcIndex extent tempId).countP
        (·.isMergeStore) = 1) ∧
      ((lowerArrayAssignment dest rhsArr srcIndex extent tempId).head? =
        some (FirOp.arrayLoadDest dest)) ∧
      ((lowerArrayAssignment dest rhsArr srcIndex extent
          tempId).getLast? = some (FirOp.arrayMergeStore dest)) ∧
      (∀ n,
        n < (lowerArrayAssignment dest rhsArr srcIndex extent
          tempId).length →
        (runOps ((lowerArrayAssignment dest rhsArr srcIndex extent
            tempId).take n) (initRun mem)).mem = mem) ∧
      ((runOps (lowerArrayAssignment dest rhsArr srcIndex extent tempId)
          (initRun mem)).mem dest =
        (List.range extent).map fun i => (mem rhsArr).getD (srcIndex i) 0) ∧
      (rhsArr = dest →
        (runOps (lowerArrayAssignment dest rhsArr srcIndex extent tempId)
            (initRun mem)).mem dest =
          (List.range extent).map fun i => (mem dest).getD (srcIndex i) 0) := by
  have hfinal : (runOps (lowerArrayAssignment dest rhsArr srcIndex extent
      tempId) (initRun mem)).mem dest =
      (List.range extent).map fun i => (mem rhsArr).getD (srcIndex i) 0 := by
    rw [lowerArrayAssignment_ops]
    show (if dest = dest then
        (List.range extent).foldl
          (fun acc i => acc.set i ((mem rhsArr).getD (srcIndex i) 0))
          (mem dest)
      else mem dest) = _
    rw [if_pos rfl,
      foldl_set_range (fun i => (mem rhsArr).getD (srcIndex i) 0) extent
        (mem dest) (by omega)]
    rw [List.drop_eq_nil_of_le (by omega), List.append_nil]
  refine ⟨rfl, rfl, rfl, rfl, ?_, hfinal, ?_⟩
  · intro n hn
    rw [lowerArrayAssignment_ops] at hn ⊢
    simp only [List.length_cons, List.length_nil] at hn
    interval_cases n <;> rfl
  · intro h
    rw [hfinal, h]

/-- Witness for `lowerArrayAssignment_spec`: lowering `a = a(3:1:-1)` for
`a = [10, 20, 30]` (so `σ i = 2 - i`) merges `[30, 20, 10]` — every
element read observed the pre-statement value of `a`. -/
theorem lowerArrayAssignment_spec_witness :
    (runOps (lowerArrayAssignment 0 0 (fun i => 2 - i) 3 5)
        (initRun fun a => if a = 0 then [10, 20, 30] else [])).mem 0 =
      [30, 20, 10] := by
  have h := (lowerArrayAssignment_spec 0 0 (fun i => 2 - i) 3 5
    (fun a => if a = 0 then [10, 20, 30] else []) rfl).2.2.2.2.2.2 rfl
  rw [h]
  rfl
